import Mathlib

/-!
Verification of the macclean core engine (`src/macclean/core/cleaner.py`)
against its natural-language specification.

The Python module is shallowly embedded: each Python function that a claim
depends on is translated into an executable Lean definition over an explicit
model of the operating-system state it reads (stat results, symlink targets,
a directory tree).  Machine floats (`st_mtime`, `time.time()`) are modelled
as integers (whole seconds: no claim below depends on fractional seconds,
and the one age comparison the code performs is equivalent under real and
integer division); Python dicts are modelled as insertion-ordered association
lists, which have the same key-value contents; thread pools whose workers
each return a private list that a single aggregator concatenates are
modelled by concatenating the per-worker lists in submission order (every
property proved below is invariant under permutation of that order).
-/

namespace MacClean

/-- Result of a successful `os.stat` / `os.lstat` call: the fields
`FileInfo.__post_init__` reads. -/
structure StatResult where
  st_size : Nat
  st_mtime : Int
  st_dev : Nat
  st_ino : Nat
deriving Repr, DecidableEq

/-- The slice of operating-system state that classifying one path reads:
`os.path.islink`, `os.path.exists`, `os.lstat`, `os.stat` (`none` models the
call raising `OSError`), `os.readlink` (`none` models it raising),
`os.path.exists(os.path.join(dirname, target))` as a predicate on the target
string, `os.access(path, W_OK)`, whether `os.path.dirname(path)` starts with
one of the protected prefixes `/System`, `/Library/System`, `/usr/lib`, and
the `mimetypes`-based category computed by `_get_file_type` for a
non-symlink path. -/
structure PathEnv where
  islink : Bool
  path_exists : Bool
  lstat : Option StatResult
  stat : Option StatResult
  readlink : Option String
  target_exists : String → Bool
  writable : Bool
  dirname_protected : Bool
  mime_file_type : String

/-- The `FileInfo` dataclass: field defaults exactly as declared in the
source (`hash_md5=None`, `modified_time=0.0`, `device_id=None`,
`inode=None`, `file_type="file"`, `is_removable=True`).  The `path` is kept
as a list of components. -/
structure FileInfo where
  path : List String
  size : Nat
  hash_md5 : Option String := none
  modified_time : Int := 0
  device_id : Option Nat := none
  inode : Option Nat := none
  file_type : String := "file"
  is_removable : Bool := true
deriving Repr, DecidableEq

/-- `FileInfo._get_file_type`: symlinks are tagged `"symlink"`, everything
else gets the mimetype-derived category (one of image/video/audio/file). -/
def get_file_type (env : PathEnv) : String :=
  if env.islink then "symlink" else env.mime_file_type

/-- `FileInfo._is_removable`.  For a symlink the target is read first
(`none` models `os.readlink` raising, which the surrounding `try` turns
into `False`); a missing resolved target returns `False` before the write
permission or protected-prefix checks run. -/
def FileInfo_is_removable (env : PathEnv) : Bool :=
  if env.islink then
    match env.readlink with
    | none => false
    | some target =>
      if ! env.target_exists target then false
      else if ! env.writable then false
      else if env.dirname_protected then false
      else true
  else
    if ! env.writable then false
    else if env.dirname_protected then false
    else true

/-- `FileInfo.__post_init__` for a path classified against `env`, starting
from the constructor arguments (`size0` is the size the caller passed).
For a symlink: `file_type` and `is_removable` are set, then `os.lstat`
fills the numeric fields (a failing `lstat` leaves them at their
defaults).  For an existing non-link: `os.stat` fills the numeric fields
and then the type and removability are computed (a failing `stat` aborts
the whole block before any assignment).  For a nonexistent path nothing
runs and every field keeps its dataclass default. -/
def FileInfo_post_init (env : PathEnv) (p : List String) (size0 : Nat) : FileInfo :=
  let base : FileInfo := { path := p, size := size0 }
  if env.islink then
    let r := { base with file_type := "symlink", is_removable := FileInfo_is_removable env }
    match env.lstat with
    | some st =>
      { r with size := st.st_size, modified_time := st.st_mtime,
               device_id := some st.st_dev, inode := some st.st_ino }
    | none => r
  else if env.path_exists then
    match env.stat with
    | some st =>
      { base with size := st.st_size, modified_time := st.st_mtime,
                  device_id := some st.st_dev, inode := some st.st_ino,
                  file_type := get_file_type env,
                  is_removable := FileInfo_is_removable env }
    | none => base
  else base

/-- A broken symlink environment with full write permission, used to show
the broken-target rule wins over permissions. -/
def brokenLinkEnv : PathEnv :=
  { islink := true, path_exists := false,
    lstat := some { st_size := 12, st_mtime := 5, st_dev := 1, st_ino := 42 },
    stat := none, readlink := some "gone",
    target_exists := fun _ => false,
    writable := true, dirname_protected := false, mime_file_type := "file" }

/-- A nonexistent path: every metadata probe fails. -/
def vanishedEnv : PathEnv :=
  { islink := false, path_exists := false, lstat := none, stat := none,
    readlink := none, target_exists := fun _ => false,
    writable := true, dirname_protected := false, mime_file_type := "file" }

/-!
### Filesystem tree model for the traversal code

The walkers (`collect_files_worker`, `_scan_directory_worker`,
`_scan_cache_directory_worker`) only consult, per entry, its path string,
whether it is a regular file, its `st_size`, its `st_mtime` and its
`st_ino`; the tree below models exactly that (a single device, ordinary
readable files, mirroring the situations the claims quantify over).
`Path.rglob('*')` is modelled by `entriesUnder`, which lists every entry of
the subtree in depth-first prefix order, directories included.
-/

/-- A directory tree: `file name size mtime ino` or `dir name children`. -/
inductive FSNode where
  | file (name : String) (size : Nat) (mtime : Int) (ino : Nat)
  | dir (name : String) (children : List FSNode)
deriving Repr

/-- Name of a node, `PurePath.name`. -/
def FSNode.name : FSNode → String
  | .file n _ _ _ => n
  | .dir n _ => n

/-- `Path.is_dir()` on a node of the tree. -/
def FSNode.isDir : FSNode → Bool
  | .file _ _ _ _ => false
  | .dir _ _ => true

/-- `Path.iterdir()`: the immediate children (empty for a non-directory,
whose `iterdir` raises and is caught by the callers). -/
def FSNode.childrenOf : FSNode → List FSNode
  | .file _ _ _ _ => []
  | .dir _ cs => cs

/-- One entry yielded by `rglob`: its absolute path (component list),
whether it is a regular file, and the stat fields the workers read
(zero/irrelevant for directories). -/
structure Entry where
  path : List String
  isFile : Bool
  size : Nat
  mtime : Int
  ino : Nat
deriving Repr, DecidableEq

/-- The entry for child `c` of the directory at path `p`. -/
def mkEntry (p : List String) : FSNode → Entry
  | .file n s m i => { path := p ++ [n], isFile := true, size := s, mtime := m, ino := i }
  | .dir n _ => { path := p ++ [n], isFile := false, size := 0, mtime := 0, ino := 0 }

mutual

/-- `node.rglob('*')` where `selfPath` is the absolute path of `node`:
every entry strictly below `node` (none for a regular file). -/
def entriesUnder : List String → FSNode → List Entry
  | _, .file _ _ _ _ => []
  | selfPath, .dir _ cs => entriesOfChildren selfPath cs

/-- Entries contributed by a list of children of the directory at `p`:
each child itself, then its subtree. -/
def entriesOfChildren : List String → List FSNode → List Entry
  | _, [] => []
  | p, c :: cs =>
      mkEntry p c :: (entriesUnder (p ++ [c.name]) c ++ entriesOfChildren p cs)

end

/-- The `FileInfo` that `FileInfo(str(file_path), 0)` builds for a regular
file of the tree: `__post_init__` reads size, mtime and inode from `stat`
(single device modelled as device 0; the tree models ordinary writable,
unprotected files, for which `_is_removable` is `true` — the default). -/
def mkFileInfo (e : Entry) : FileInfo :=
  { path := e.path, size := e.size, modified_time := e.mtime,
    device_id := some 0, inode := some e.ino }

/-- `collect_files_worker(root_path)`: walk the subtree with `rglob`,
build a `FileInfo` per regular file and keep those with `size > 0`. -/
def collect_files_worker (selfPath : List String) (n : FSNode) : List FileInfo :=
  (entriesUnder selfPath n).foldl
    (fun files e =>
      if e.isFile then
        if (mkFileInfo e).size > 0 then files ++ [mkFileInfo e] else files
      else files)
    []

/-- `name.startswith('.')`, decided on the character data. -/
def startsWithDot (s : String) : Bool :=
  match s.data with
  | [] => false
  | c :: _ => c = '.'

/-- The traversal units of `scan_directory_optimized`: the root itself
plus every first-level child that is a directory whose name does not start
with a dot (each paired with its absolute path). -/
def traversal_units (rootPath : List String) (root : FSNode) :
    List (List String × FSNode) :=
  (rootPath, root) ::
    root.childrenOf.filterMap (fun c =>
      if c.isDir && ! startsWithDot c.name then some (rootPath ++ [c.name], c)
      else none)

/-- Phase 1 of `scan_directory_optimized`: run `collect_files_worker` on
every unit and concatenate the per-worker lists (the aggregator drains
them in completion order; concatenation in submission order represents one
such order, and everything proved below is permutation-invariant). -/
def all_files (rootPath : List String) (root : FSNode) : List FileInfo :=
  (traversal_units rootPath root).flatMap (fun u => collect_files_worker u.1 u.2)

/-!
### Python dicts and the size/hash grouping of `scan_directory_optimized`

A Python dict is modelled as an insertion-ordered association list:
`dictInsert` is `d[k] = v` (overwrite in place or append), `dictFind` is
`d.get(k)`, and `addToBucket` is the
`if k not in d: d[k] = []` / `d[k].append(v)` idiom used by both grouping
phases.
-/

/-- `d[k] = v` on a Python dict. -/
def dictInsert {κ ν : Type} [DecidableEq κ] (k : κ) (v : ν) :
    List (κ × ν) → List (κ × ν)
  | [] => [(k, v)]
  | (k0, v0) :: rest =>
      if k0 = k then (k0, v) :: rest else (k0, v0) :: dictInsert k v rest

/-- `d.get(k)` on a Python dict, `none` when absent. -/
def dictFind {κ ν : Type} [DecidableEq κ] (k : κ) : List (κ × ν) → Option ν
  | [] => none
  | (k0, v0) :: rest => if k0 = k then some v0 else dictFind k rest

/-- Append `v` to the bucket of `k`, creating the bucket if needed. -/
def addToBucket {κ : Type} [DecidableEq κ] (k : κ) (v : FileInfo) :
    List (κ × List FileInfo) → List (κ × List FileInfo)
  | [] => [(k, [v])]
  | (k0, vs) :: rest =>
      if k0 = k then (k0, vs ++ [v]) :: rest
      else (k0, vs) :: addToBucket k v rest

/-- Phase 2 of `scan_directory_optimized`: group the collected records by
exact size into `self.files_by_size`. -/
def files_by_size (files : List FileInfo) : List (Nat × List FileInfo) :=
  files.foldl (fun m f => addToBucket f.size f m) []

/-- `candidate_groups`: the size buckets with more than one member; only
these are ever handed to the hashing phase. -/
def candidate_groups (files : List FileInfo) : List (List FileInfo) :=
  (files_by_size files).filterMap
    (fun b => if 1 < b.2.length then some b.2 else none)

/-!
### `calculate_md5_batch` and per-bucket duplicate grouping

`calculate_md5_optimized` is modelled by an oracle `md5 : path → digest`
where the empty string is exactly what the Python function returns when the
read fails (`except (OSError, IOError, ValueError): return ""`).  The batch
submits every path of the list to the pool; `as_completed` drains the
futures in an arbitrary order, but the resulting dict (a finite map) does
not depend on that order, so draining in submission order is faithful.  The
second component records the paths on which `calculate_md5_optimized` was
invoked: the dict comprehension submits one future per path, with no lookup
anywhere else, so every path of the batch is hashed.
-/

/-- One step of `calculate_md5_batch`: hash one submitted path, record the
invocation, and store the digest unless the hash is the empty (failure)
string. -/
def md5_batch_step (md5 : List String → String)
    (acc : List (List String × String) × List (List String))
    (p : List String) :
    List (List String × String) × List (List String) :=
  (if md5 p = "" then acc.1 else dictInsert p (md5 p) acc.1, acc.2 ++ [p])

/-- The dict component of `md5_batch_step` on its own. -/
def md5_dict_step (md5 : List String → String)
    (d : List (List String × String)) (p : List String) :
    List (List String × String) :=
  if md5 p = "" then d else dictInsert p (md5 p) d

/-- `calculate_md5_batch(file_paths)` together with the trace of the paths
actually submitted to `calculate_md5_optimized`. -/
def calculate_md5_batch_traced (md5 : List String → String)
    (file_paths : List (List String)) :
    List (List String × String) × List (List String) :=
  file_paths.foldl (md5_batch_step md5) ([], [])

/-- `calculate_md5_batch(file_paths)`: the path-to-digest dict; a path
whose hashing failed (empty digest) is simply absent. -/
def calculate_md5_batch (md5 : List String → String)
    (file_paths : List (List String)) : List (List String × String) :=
  (calculate_md5_batch_traced md5 file_paths).1

/-- One record of the "group by hash" loop: a record with a truthy
(`is not None` and nonempty) digest joins the bucket of its digest;
the others are passed over. -/
def hash_bucket_step (m : List (String × List FileInfo)) (f : FileInfo) :
    List (String × List FileInfo) :=
  match f.hash_md5 with
  | some h => if h = "" then m else addToBucket h f m
  | none => m

/-- The `files_by_hash` dict built inside `scan_directory_optimized` for
one size bucket (after digests were attached). -/
def files_by_hash (group2 : List FileInfo) : List (String × List FileInfo) :=
  group2.foldl hash_bucket_step []

/-- The bucket's records with their `hash_md5` field assigned from the
batch results (absent when hashing failed). -/
def attach_hashes (md5 : List String → String) (group : List FileInfo) :
    List FileInfo :=
  let hash_results := calculate_md5_batch md5 (group.map FileInfo.path)
  group.map (fun f => { f with hash_md5 := dictFind f.path hash_results })

/-- Phase 3 of `scan_directory_optimized` for one size bucket: hash the
bucket, attach `hash_md5` to each record (absent when hashing failed),
group by truthy digest, and emit the hash groups with more than one
member. -/
def process_group (md5 : List String → String) (group : List FileInfo) :
    List (List FileInfo) :=
  (files_by_hash (attach_hashes md5 group)).filterMap
    (fun b => if 1 < b.2.length then some b.2 else none)

/-- Phases 2 and 3 together: `self.duplicates` as returned for a given
collected file list. -/
def find_duplicate_groups (md5 : List String → String) (files : List FileInfo) :
    List (List FileInfo) :=
  (candidate_groups files).flatMap (process_group md5)

/-- The full path trace of `calculate_md5_optimized` invocations that the
scan performs across all candidate buckets. -/
def find_hash_invocations (md5 : List String → String) (files : List FileInfo) :
    List (List String) :=
  (candidate_groups files).flatMap
    (fun g => (calculate_md5_batch_traced md5 (g.map FileInfo.path)).2)

/-- `scan_directory_optimized(directory)`.  `none` models a root path that
does not exist; a `.file` node models a root path that is not a directory.
In both cases `iterdir` raises and is caught (`subdirs` stays `[root]`),
and the single worker's `rglob` yields nothing (any `OSError` is caught in
the worker), so the collected list is empty; the function has no error
channel and simply returns the duplicate groups. -/
def scan_directory_optimized (md5 : List String → String)
    (rootPath : List String) (root : Option FSNode) : List (List FileInfo) :=
  match root with
  | none => find_duplicate_groups md5 []
  | some r => find_duplicate_groups md5 (all_files rootPath r)

/-- A root with one visible subdirectory holding one ordinary nonempty
file — the smallest tree on which the double-scheduling shows. -/
def exDupRoot : FSNode := .dir "root" [ .dir "sub" [ .file "a.txt" 5 10 1]]

/-- A digest oracle under which every read succeeds with digest `"d"`. -/
def exMd5one : List String → String := fun _ => "d"

/-- Two same-size records that hash equal under `exMd5one`. -/
def exFa : FileInfo := { path := [ "r", "a.txt"], size := 4 }

/-- Second member of the concrete duplicate pair. -/
def exFb : FileInfo := { path := [ "r", "b.txt"], size := 4 }

/-- `exFa` as it appears in the scan output (digest attached). -/
def exDa : FileInfo := { path := [ "r", "a.txt"], size := 4, hash_md5 := some "d" }

/-- `exFb` as it appears in the scan output (digest attached). -/
def exDb : FileInfo := { path := [ "r", "b.txt"], size := 4, hash_md5 := some "d" }

/-- A record whose content cannot be read under `exMd5fail`. -/
def exFbad : FileInfo := { path := [ "r", "bad"], size := 4 }

/-- A digest oracle that fails (returns the empty string) exactly on the
path of `exFbad` and yields `"h"` elsewhere. -/
def exMd5fail : List String → String :=
  fun p => if p = [ "r", "bad"] then "" else "h"

/-- `exFa` as hashed by `exMd5fail`. -/
def exGa : FileInfo := { path := [ "r", "a.txt"], size := 4, hash_md5 := some "h" }

/-- `exFb` as hashed by `exMd5fail`. -/
def exGb : FileInfo := { path := [ "r", "b.txt"], size := 4, hash_md5 := some "h" }

/-!
### C5: the digest cache of `M1OptimizedDuplicateFinder`
-/

/-- `_get_file_signature`: the `(size, modified_time, inode or 0)` identity
tuple the hash cache is keyed by. -/
def get_file_signature (f : FileInfo) : Nat × Int × Nat :=
  (f.size, f.modified_time, f.inode.getD 0)

/-- The finder's `hash_cache` field as a scan leaves it.  `__init__`
creates the dict; no statement anywhere in the class ever reads it or
writes to it afterwards (`_get_file_signature` has no caller), so
`scan_directory_optimized` returns the field exactly as it found it,
unconsulted. -/
def scan_hash_cache_after (cache0 : List ((Nat × Int × Nat) × String)) :
    List ((Nat × Int × Nat) × String) := cache0

/-- One of two hard-linked records: same size, mtime and inode. -/
def exHardA : FileInfo :=
  { path := [ "r", "hl1"], size := 4, modified_time := 7, inode := some 99 }

/-- The other hard link of the same inode. -/
def exHardB : FileInfo :=
  { path := [ "r", "hl2"], size := 4, modified_time := 7, inode := some 99 }

/-!
### `M1OptimizedLargeFilesFinder` (C6, C7)

Directory paths are rendered as strings for the substring-containment
tests that `_should_skip_directory` performs (`exclude in dir_str`).
-/

/-- `needle.isPrefixOf`-based substring search over character lists,
modelling the Python `in` operator on strings. -/
def containsSeq (needle : List Char) : List Char → Bool
  | [] => needle.isEmpty
  | c :: rest => needle.isPrefixOf (c :: rest) || containsSeq needle rest

/-- `frag in hay` on Python strings. -/
def strContainsFrag (hay frag : String) : Bool :=
  containsSeq frag.data hay.data

/-- `str(dir_path)` for a path given as components under `/`. -/
def pathStr (p : List String) : String :=
  "/" ++ String.intercalate "/" p

/-- The configuration of `M1OptimizedLargeFilesFinder`: the byte
threshold, the Apple-Silicon flag and the exclusion set. -/
structure LargeFilesCfg where
  min_size_bytes : Nat
  is_apple_silicon : Bool
  excluded_dirs : List String

/-- The `excluded_dirs` set from `M1OptimizedLargeFilesFinder.__init__`
(a Python set; `any` over it is order-insensitive, so a list is
faithful). -/
def default_excluded_dirs : List String :=
  [ "/System", "/Library/Developer", "/usr/local/Cellar",
    "/.Spotlight-V100", "/.fseventsd", "/.Trashes",
    "/.git", "/node_modules", "__pycache__", ".venv"]

/-- The extra fragments checked when running on Apple Silicon. -/
def apple_silicon_excludes : List String :=
  [ "/System/", "/Library/Developer/", "/private/var/vm/",
    "com.apple.", ".Spotlight-V100", ".fseventsd"]

/-- `_should_skip_directory`. -/
def should_skip_directory (cfg : LargeFilesCfg) (dir_str : String) : Bool :=
  (cfg.is_apple_silicon
      && apple_silicon_excludes.any (fun ex => strContainsFrag dir_str ex))
    || cfg.excluded_dirs.any (fun ex => strContainsFrag dir_str ex)

/-- One iteration of the `rglob` loop of `_scan_directory_worker`: a
regular file at or above the threshold is collected; for a directory the
code evaluates `_should_skip_directory` and runs `continue` — which, at
the end of the loop body, has no effect, so both branches leave the
accumulator unchanged. -/
def large_worker_step (cfg : LargeFilesCfg) (acc : List FileInfo) (e : Entry) :
    List FileInfo :=
  if e.isFile then
    if cfg.min_size_bytes ≤ e.size then acc ++ [mkFileInfo e] else acc
  else
    if should_skip_directory cfg (pathStr e.path) then acc else acc

/-- `_scan_directory_worker(directory)`. -/
def scan_directory_worker (cfg : LargeFilesCfg) (selfPath : List String)
    (n : FSNode) : List FileInfo :=
  (entriesUnder selfPath n).foldl (large_worker_step cfg) []

/-- The traversal units of `find_large_files_optimized`: the root plus
every first-level child directory that is not itself skipped. -/
def large_scan_units (cfg : LargeFilesCfg) (rootPath : List String)
    (root : FSNode) : List (List String × FSNode) :=
  (rootPath, root) ::
    root.childrenOf.filterMap (fun c =>
      if c.isDir && ! should_skip_directory cfg (pathStr (rootPath ++ [c.name]))
      then some (rootPath ++ [c.name], c) else none)

/-- The aggregated worker results, before sorting. -/
def all_large_files (cfg : LargeFilesCfg) (rootPath : List String)
    (root : FSNode) : List FileInfo :=
  (large_scan_units cfg rootPath root).flatMap
    (fun u => scan_directory_worker cfg u.1 u.2)

/-- `find_large_files_optimized(directory)`: aggregate and sort by
descending size (Python's stable `sort(key=size, reverse=True)`,
modelled by the stable `mergeSort` under the `≥`-by-size relation). -/
def find_large_files_optimized (cfg : LargeFilesCfg) (rootPath : List String)
    (root : FSNode) : List FileInfo :=
  (all_large_files cfg rootPath root).mergeSort
    (fun a b => decide (b.size ≤ a.size))

/-- Concrete large-files configuration (threshold 100 bytes, not Apple
Silicon, the default exclusion set). -/
def exLargeCfg : LargeFilesCfg :=
  { min_size_bytes := 100, is_apple_silicon := false,
    excluded_dirs := default_excluded_dirs }

/-- A root whose only file sits inside an excluded `node_modules`
directory. -/
def exLargeRoot : FSNode :=
  .dir "root" [ .dir "node_modules" [ .file "big.bin" 200 0 7]]

/-- The record for the file under the excluded directory. -/
def exBigRec : FileInfo :=
  { path := [ "root", "node_modules", "big.bin"], size := 200,
    device_id := some 0, inode := some 7 }

/-!
### `M1OptimizedCacheCleaner._scan_cache_directory_worker` (C10)
-/

/-- One iteration of the cache worker's `rglob` loop: on Apple Silicon a
file younger than 24 hours is passed over (`continue`), otherwise every
regular file is collected; off Apple Silicon no age test runs at all. -/
def cache_worker_step (is_as : Bool) (now : Int) (acc : List FileInfo)
    (e : Entry) : List FileInfo :=
  if e.isFile then
    if is_as then
      if (now - (mkFileInfo e).modified_time) / 3600 < 24 then acc
      else acc ++ [mkFileInfo e]
    else acc ++ [mkFileInfo e]
  else acc

/-- `_scan_cache_directory_worker(cache_dir)`, `now` being the
`time.time()` the age test reads. -/
def scan_cache_directory_worker (is_as : Bool) (now : Int)
    (selfPath : List String) (cache_dir : FSNode) : List FileInfo :=
  (entriesUnder selfPath cache_dir).foldl (cache_worker_step is_as now) []

/-- Scan time for the concrete cache example. -/
def exNow : Int := 100000

/-- A cache entry modified 50 seconds before the scan. -/
def exRecentEntry : Entry :=
  { path := [ "Users", "me", "Library", "Caches", "recent.tmp"],
    isFile := true, size := 10, mtime := 99950, ino := 3 }

/-- A cache directory holding the recent file and an old one. -/
def exCacheDir : FSNode :=
  .dir "Caches" [ .file "recent.tmp" 10 99950 3, .file "old.tmp" 10 0 4]

/-!
### Theorems

Helper lemmas about the folds and dict operations, followed by the
claim theorems, their witnesses and the counterexamples.
-/

/-- C3: a symbolic link whose resolved target does not exist (or whose
target cannot even be read) is classified with `is_removable = false`, no
matter what the write permission on the link is. -/
theorem broken_symlink_never_removable (env : PathEnv) (p : List String) (s0 : Nat)
    (hlink : env.islink = true)
    (hbroken : ∀ t, env.readlink = some t → env.target_exists t = false) :
    (FileInfo_post_init env p s0).is_removable = false := by
  have hrem : FileInfo_is_removable env = false := by
    unfold FileInfo_is_removable
    rw [hlink]
    cases hr : env.readlink with
    | none => simp
    | some t => simp [hbroken t hr]
  unfold FileInfo_post_init
  rw [hlink]
  cases env.lstat <;> simp [hrem]

/-- Witness for C3: the concrete broken link with `writable = true` is
still not removable. -/
theorem broken_symlink_never_removable_witness :
    (FileInfo_post_init brokenLinkEnv [ "home", "me", "dead_link"] 0).is_removable = false :=
  broken_symlink_never_removable brokenLinkEnv [ "home", "me", "dead_link"] 0 rfl
    (fun _ h => by cases h; rfl)

/-- Counterexample to C4 as stated: for a vanished path the classifier
keeps the dataclass defaults, so `is_removable` is `true` (not `false`)
and `size` keeps the caller-provided `100` (not zero) — exactly the
behaviour the repository test `test_file_info_nonexistent_file` pins. -/
theorem metadata_failure_keeps_defaults_cex :
    (FileInfo_post_init vanishedEnv [ "nonexistent", "file.txt"] 100).is_removable = true ∧
    (FileInfo_post_init vanishedEnv [ "nonexistent", "file.txt"] 100).size = 100 :=
  ⟨rfl, rfl⟩

/-- C4 amended: a metadata-read failure never raises (the embedding is a
total function) and leaves the record with its constructed values: the
caller-passed size, zero `modified_time`, `none` device/inode, and the
default `is_removable = true` for non-links (for a symlink whose `lstat`
fails, removability is still the computed link policy). -/
theorem metadata_failure_keeps_defaults (env : PathEnv) (p : List String) (s0 : Nat)
    (hfail : if env.islink then env.lstat = none
             else env.path_exists = false ∨ env.stat = none) :
    (FileInfo_post_init env p s0).size = s0 ∧
    (FileInfo_post_init env p s0).modified_time = 0 ∧
    (FileInfo_post_init env p s0).device_id = none ∧
    (FileInfo_post_init env p s0).inode = none ∧
    (FileInfo_post_init env p s0).is_removable =
      (if env.islink then FileInfo_is_removable env else true) := by
  unfold FileInfo_post_init
  cases hl : env.islink with
  | true =>
    rw [hl] at hfail
    simp at hfail
    simp [hfail]
  | false =>
    rw [hl] at hfail
    simp at hfail
    cases he : env.path_exists with
    | false => simp
    | true =>
      rw [he] at hfail
      simp at hfail
      simp [hfail]

/-- Witness for amended C4, at the concrete vanished path. -/
theorem metadata_failure_keeps_defaults_witness :
    (FileInfo_post_init vanishedEnv [ "gone.txt"] 7).size = 7 ∧
    (FileInfo_post_init vanishedEnv [ "gone.txt"] 7).modified_time = 0 ∧
    (FileInfo_post_init vanishedEnv [ "gone.txt"] 7).device_id = none ∧
    (FileInfo_post_init vanishedEnv [ "gone.txt"] 7).inode = none ∧
    (FileInfo_post_init vanishedEnv [ "gone.txt"] 7).is_removable =
      (if vanishedEnv.islink then FileInfo_is_removable vanishedEnv else true) :=
  metadata_failure_keeps_defaults vanishedEnv [ "gone.txt"] 7 (by simp [vanishedEnv])

/-- C1: the root traversal unit already walks the whole tree with `rglob`,
yet each visible first-level subdirectory is scheduled again as its own
unit, so the file `root/sub/a.txt` is collected twice — and the scan then
reports that lone file as a "duplicate group" of itself. -/
theorem subdir_file_collected_twice :
    ((all_files [ "root"] exDupRoot).map FileInfo.path).count
        [ "root", "sub", "a.txt"] = 2 ∧
    (find_duplicate_groups exMd5one (all_files [ "root"] exDupRoot)).length = 1 := by
  constructor <;> decide

/-- Counterexample for C8: the scan on a missing root (`none`) returns the
empty duplicates list — no failure value exists in its result type — so it
completes silently instead of surfacing a caller-input error. -/
theorem missing_root_silent_empty_cex :
    scan_directory_optimized exMd5one [ "root"] none = [] := rfl

/-- C8 amended: `scan_directory_optimized` performs no validation of the
root path.  A nonexistent root, and likewise a root that is a regular file
rather than a directory, make every traversal raise and be swallowed, and
the scan returns an empty duplicates list with no error surfaced. -/
theorem missing_root_returns_empty (md5 : List String → String)
    (rootPath : List String) (n : String) (s : Nat) (m : Int) (i : Nat) :
    scan_directory_optimized md5 rootPath none = [] ∧
    scan_directory_optimized md5 rootPath (some (.file n s m i)) = [] :=
  ⟨rfl, rfl⟩

/-!
### Invariants of the bucket folds
-/

/-- `addToBucket` preserves any per-bucket invariant `P key member` as
long as the inserted value satisfies it for the key it is filed under. -/
theorem addToBucket_forall {κ : Type} [DecidableEq κ] (P : κ → FileInfo → Prop)
    (k : κ) (v : FileInfo) (hv : P k v) :
    ∀ (m : List (κ × List FileInfo)),
      (∀ b ∈ m, ∀ f ∈ b.2, P b.1 f) →
      ∀ b ∈ addToBucket k v m, ∀ f ∈ b.2, P b.1 f := by
  intro m
  induction m with
  | nil =>
    intro _ b hb f hf
    simp only [addToBucket, List.mem_singleton] at hb
    subst hb
    simp only [List.mem_singleton] at hf
    subst hf
    exact hv
  | cons hd tl ih =>
    obtain ⟨k0, vs⟩ := hd
    intro hm b hb f hf
    simp only [addToBucket] at hb
    split at hb
    case isTrue heq =>
      rcases List.mem_cons.mp hb with hb1 | hb2
      · subst hb1
        rcases List.mem_append.mp hf with hf1 | hf2
        · exact hm (k0, vs) (List.mem_cons_self _ _) f hf1
        · simp only [List.mem_singleton] at hf2
          subst hf2
          subst heq
          exact hv
      · exact hm b (List.mem_cons_of_mem _ hb2) f hf
    case isFalse =>
      rcases List.mem_cons.mp hb with hb1 | hb2
      · subst hb1
        exact hm (k0, vs) (List.mem_cons_self _ _) f hf
      · exact ih (fun b1 hb1 => hm b1 (List.mem_cons_of_mem _ hb1)) b hb2 f hf

/-- Every record filed in a bucket of `files_by_size` has exactly the
bucket's size key. -/
theorem files_by_size_sizes (files : List FileInfo) :
    ∀ b ∈ files_by_size files, ∀ f ∈ b.2, f.size = b.1 := by
  suffices h : ∀ (l : List FileInfo) (m0 : List (Nat × List FileInfo)),
      (∀ b ∈ m0, ∀ f ∈ b.2, f.size = b.1) →
      ∀ b ∈ l.foldl (fun m f => addToBucket f.size f m) m0, ∀ f ∈ b.2, f.size = b.1 by
    exact h files [] (by simp)
  intro l
  induction l with
  | nil => intro m0 h0; simpa using h0
  | cons f fs ih =>
    intro m0 h0
    simp only [List.foldl_cons]
    exact ih _ (addToBucket_forall (fun k x => x.size = k) f.size f rfl m0 h0)

/-- Every record filed in a bucket of `files_by_hash` carries exactly the
bucket's digest key, the digest is truthy, and the record comes from the
input list. -/
theorem files_by_hash_sound (l : List FileInfo) :
    ∀ b ∈ files_by_hash l, ∀ f ∈ b.2,
      f.hash_md5 = some b.1 ∧ b.1 ≠ "" ∧ f ∈ l := by
  suffices h : ∀ (l2 : List FileInfo), (∀ f ∈ l2, f ∈ l) →
      ∀ (m0 : List (String × List FileInfo)),
        (∀ b ∈ m0, ∀ f ∈ b.2, f.hash_md5 = some b.1 ∧ b.1 ≠ "" ∧ f ∈ l) →
        ∀ b ∈ l2.foldl hash_bucket_step m0, ∀ f ∈ b.2,
          f.hash_md5 = some b.1 ∧ b.1 ≠ "" ∧ f ∈ l by
    exact h l (fun f hf => hf) [] (by simp)
  intro l2
  induction l2 with
  | nil => intro _ m0 h0; simpa using h0
  | cons f fs ih =>
    intro hsub m0 h0
    simp only [List.foldl_cons]
    apply ih (fun x hx => hsub x (List.mem_cons_of_mem _ hx))
    cases hh : f.hash_md5 with
    | none => simpa [hash_bucket_step, hh] using h0
    | some d =>
      by_cases hd : d = ""
      · simpa [hash_bucket_step, hh, hd] using h0
      · simp only [hash_bucket_step, hh, if_neg hd]
        exact addToBucket_forall
          (fun h x => x.hash_md5 = some h ∧ h ≠ "" ∧ x ∈ l) d f
          ⟨hh, hd, hsub f (List.mem_cons_self _ _)⟩ m0 h0

/-- Membership in `candidate_groups`: the group is a size bucket with more
than one member. -/
theorem mem_candidate_groups (files : List FileInfo) (g : List FileInfo)
    (hg : g ∈ candidate_groups files) :
    1 < g.length ∧ ∃ k, (k, g) ∈ files_by_size files := by
  simp only [candidate_groups, List.mem_filterMap] at hg
  obtain ⟨b, hb, hcond⟩ := hg
  by_cases h : 1 < b.2.length
  · rw [if_pos h] at hcond
    cases hcond
    exact ⟨h, b.1, by simpa using hb⟩
  · rw [if_neg h] at hcond
    cases hcond

/-- Records of `attach_hashes md5 group` are the records of `group` with
only the `hash_md5` field changed. -/
theorem mem_attach_hashes (md5 : List String → String) (group : List FileInfo)
    (f : FileInfo) (hf : f ∈ attach_hashes md5 group) :
    ∃ f0 ∈ group, f.size = f0.size ∧ f.path = f0.path ∧
      f.hash_md5 = dictFind f0.path (calculate_md5_batch md5 (group.map FileInfo.path)) := by
  simp only [attach_hashes, List.mem_map] at hf
  obtain ⟨f0, hf0, heq⟩ := hf
  exact ⟨f0, hf0, by rw [← heq], by rw [← heq], by rw [← heq]⟩

/-- C2: every emitted duplicate group has at least two members, all of the
same exact size and the same truthy digest; and the hashing phase only
ever receives size buckets with at least two members. -/
theorem duplicate_groups_sound (md5 : List String → String) (files : List FileInfo) :
    (∀ g ∈ candidate_groups files, 2 ≤ g.length) ∧
    (∀ g ∈ find_duplicate_groups md5 files,
      2 ≤ g.length ∧
      ∀ f1 ∈ g, ∀ f2 ∈ g,
        f1.size = f2.size ∧ f1.hash_md5 = f2.hash_md5 ∧ f1.hash_md5 ≠ none) := by
  constructor
  · intro g hg
    exact (mem_candidate_groups files g hg).1
  · intro g hg
    simp only [find_duplicate_groups, List.mem_flatMap] at hg
    obtain ⟨group, hgroup, hpg⟩ := hg
    simp only [process_group, List.mem_filterMap] at hpg
    obtain ⟨b, hb, hcond⟩ := hpg
    by_cases hlen : 1 < b.2.length
    swap
    · rw [if_neg hlen] at hcond; cases hcond
    rw [if_pos hlen] at hcond
    cases hcond
    refine ⟨hlen, ?_⟩
    obtain ⟨-, k, hk⟩ := mem_candidate_groups files group hgroup
    have hsizes := files_by_size_sizes files (k, group) hk
    have hhash := files_by_hash_sound (attach_hashes md5 group) b hb
    intro f1 hf1 f2 hf2
    obtain ⟨h1h, h1ne, h1mem⟩ := hhash f1 hf1
    obtain ⟨h2h, h2ne, h2mem⟩ := hhash f2 hf2
    obtain ⟨o1, ho1, h1sz, -, -⟩ := mem_attach_hashes md5 group f1 h1mem
    obtain ⟨o2, ho2, h2sz, -, -⟩ := mem_attach_hashes md5 group f2 h2mem
    refine ⟨?_, ?_, ?_⟩
    · rw [h1sz, h2sz, hsizes o1 ho1, hsizes o2 ho2]
    · rw [h1h, h2h]
    · rw [h1h]; exact Option.some_ne_none _

/-- Witness for C2 on the concrete two-file duplicate pair. -/
theorem duplicate_groups_sound_witness :
    2 ≤ ([exDa, exDb] : List FileInfo).length ∧
    exDa.size = exDb.size ∧ exDa.hash_md5 = exDb.hash_md5 := by
  have h := (duplicate_groups_sound exMd5one [ exFa, exFb]).2 [exDa, exDb] (by decide)
  exact ⟨h.1, (h.2 exDa (by decide) exDb (by decide)).1,
    (h.2 exDa (by decide) exDb (by decide)).2.1⟩

/-!
### The batch-hash dict: lookup characterisation (C9)
-/

/-- Looking up the key just written. -/
theorem dictFind_insert_self {κ ν : Type} [DecidableEq κ] (k : κ) (v : ν) :
    ∀ m, dictFind k (dictInsert k v m) = some v := by
  intro m
  induction m with
  | nil => simp [dictInsert, dictFind]
  | cons hd tl ih =>
    obtain ⟨k0, v0⟩ := hd
    by_cases h : k0 = k
    · simp [dictInsert, dictFind, h]
    · simp [dictInsert, dictFind, h, ih]

/-- Writing one key leaves every other lookup unchanged. -/
theorem dictFind_insert_ne {κ ν : Type} [DecidableEq κ] (k q : κ) (v : ν)
    (hne : q ≠ k) : ∀ m, dictFind q (dictInsert k v m) = dictFind q m := by
  intro m
  have hkq : ¬ (k = q) := fun h => hne h.symm
  induction m with
  | nil => simp [dictInsert, dictFind, hkq]
  | cons hd tl ih =>
    obtain ⟨k0, v0⟩ := hd
    by_cases h : k0 = k
    · subst h
      simp [dictInsert, dictFind, hkq]
    · simp [dictInsert, dictFind, h, ih]

/-- The dict component of the traced batch is the plain dict fold. -/
theorem calculate_md5_batch_traced_fst (md5 : List String → String) :
    ∀ (ps : List (List String)) (d0 : List (List String × String))
      (t0 : List (List String)),
      (ps.foldl (md5_batch_step md5) (d0, t0)).1 = ps.foldl (md5_dict_step md5) d0 := by
  intro ps
  induction ps with
  | nil => intro d0 t0; rfl
  | cons p rest ih =>
    intro d0 t0
    simp only [List.foldl_cons]
    exact ih (md5_dict_step md5 d0 p) (t0 ++ [p])

/-- The trace component of the batch: every submitted path is hashed,
in submission order — there is no cache consultation anywhere. -/
theorem calculate_md5_batch_traced_snd (md5 : List String → String) :
    ∀ (ps : List (List String)) (d0 : List (List String × String))
      (t0 : List (List String)),
      (ps.foldl (md5_batch_step md5) (d0, t0)).2 = t0 ++ ps := by
  intro ps
  induction ps with
  | nil => intro d0 t0; simp
  | cons p rest ih =>
    intro d0 t0
    simp only [List.foldl_cons]
    have hstep : md5_batch_step md5 (d0, t0) p
        = (md5_dict_step md5 d0 p, t0 ++ [p]) := rfl
    rw [hstep, ih]
    simp

/-- Lookup in the dict produced by the batch fold. -/
theorem calculate_md5_batch_lookup (md5 : List String → String) :
    ∀ (paths : List (List String)) (d0 : List (List String × String))
      (p : List String),
      dictFind p (paths.foldl (md5_dict_step md5) d0) =
        if p ∈ paths ∧ md5 p ≠ "" then some (md5 p) else dictFind p d0 := by
  intro paths
  induction paths with
  | nil => intro d0 p; simp
  | cons q rest ih =>
    intro d0 p
    simp only [List.foldl_cons]
    rw [ih]
    by_cases hp : p ∈ rest ∧ md5 p ≠ ""
    · rw [if_pos hp, if_pos ⟨List.mem_cons_of_mem _ hp.1, hp.2⟩]
    · rw [if_neg hp]
      by_cases hpq : p = q
      · subst hpq
        by_cases hm : md5 p = ""
        · rw [show md5_dict_step md5 d0 p = d0 from by simp [md5_dict_step, hm]]
          rw [if_neg (fun hc => hc.2 hm)]
        · rw [show md5_dict_step md5 d0 p = dictInsert p (md5 p) d0 from by
              simp [md5_dict_step, hm]]
          rw [dictFind_insert_self, if_pos ⟨List.mem_cons_self _ _, hm⟩]
      · have hiff : (p ∈ q :: rest ∧ md5 p ≠ "") ↔ (p ∈ rest ∧ md5 p ≠ "") := by
          constructor
          · rintro ⟨hmem, hne⟩
            rcases List.mem_cons.mp hmem with h | h
            · exact absurd h hpq
            · exact ⟨h, hne⟩
          · rintro ⟨hmem, hne⟩
            exact ⟨List.mem_cons_of_mem _ hmem, hne⟩
        rw [if_neg (fun hc => hp (hiff.mp hc))]
        unfold md5_dict_step
        by_cases hm : md5 q = ""
        · rw [if_pos hm]
        · rw [if_neg hm, dictFind_insert_ne q p (md5 q) hpq]

/-- `calculate_md5_batch` viewed as a map: a path gets a digest exactly
when it was in the batch and its read succeeded. -/
theorem calculate_md5_batch_spec (md5 : List String → String)
    (paths : List (List String)) (p : List String) :
    dictFind p (calculate_md5_batch md5 paths) =
      if p ∈ paths ∧ md5 p ≠ "" then some (md5 p) else none := by
  unfold calculate_md5_batch calculate_md5_batch_traced
  rw [calculate_md5_batch_traced_fst, calculate_md5_batch_lookup]
  rfl

/-- C9: a failed hash (empty digest, as `calculate_md5_optimized` returns
on a read or permission error) removes only that path: records whose
hashing failed appear in no duplicate group, every other path of the same
batch still gets its digest, and a failed path has no entry at all in the
batch result. -/
theorem hash_failure_isolated (md5 : List String → String) (files : List FileInfo)
    (paths : List (List String)) :
    (∀ g ∈ find_duplicate_groups md5 files, ∀ f ∈ g, md5 f.path ≠ "") ∧
    (∀ p ∈ paths, md5 p ≠ "" →
      dictFind p (calculate_md5_batch md5 paths) = some (md5 p)) ∧
    (∀ p, md5 p = "" → dictFind p (calculate_md5_batch md5 paths) = none) := by
  refine ⟨?_, ?_, ?_⟩
  · intro g hg f hf
    simp only [find_duplicate_groups, List.mem_flatMap] at hg
    obtain ⟨group, hgroup, hpg⟩ := hg
    simp only [process_group, List.mem_filterMap] at hpg
    obtain ⟨b, hb, hcond⟩ := hpg
    by_cases hlen : 1 < b.2.length
    swap
    · rw [if_neg hlen] at hcond; cases hcond
    rw [if_pos hlen] at hcond
    cases hcond
    obtain ⟨hfh, hfne, hfmem⟩ := files_by_hash_sound _ b hb f hf
    obtain ⟨o, ho, -, hpath, hhash⟩ := mem_attach_hashes md5 group f hfmem
    rw [hfh, calculate_md5_batch_spec] at hhash
    by_cases hc : o.path ∈ group.map FileInfo.path ∧ md5 o.path ≠ ""
    · rw [if_pos hc] at hhash
      injection hhash with hbv
      rw [hpath, ← hbv]
      exact hfne
    · rw [if_neg hc] at hhash
      cases hhash
  · intro p hp hne
    rw [calculate_md5_batch_spec, if_pos ⟨hp, hne⟩]
  · intro p hm
    rw [calculate_md5_batch_spec, if_neg (fun hc => hc.2 hm)]

/-- Witness for C9: with three same-size records of which one fails to
hash, the surviving pair still forms a group whose members hash
successfully; the good path keeps its digest, the bad path has none. -/
theorem hash_failure_isolated_witness :
    exMd5fail exGa.path ≠ "" ∧
    dictFind [ "r", "a.txt"]
      (calculate_md5_batch exMd5fail [ [ "r", "a.txt"], [ "r", "bad"]]) = some "h" ∧
    dictFind [ "r", "bad"]
      (calculate_md5_batch exMd5fail [ [ "r", "a.txt"], [ "r", "bad"]]) = none := by
  have h := hash_failure_isolated exMd5fail [ exFa, exFb, exFbad]
    [ [ "r", "a.txt"], [ "r", "bad"]]
  exact ⟨h.1 [ exGa, exGb] (by decide) exGa (by decide),
    h.2.1 [ "r", "a.txt"] (by decide) (by decide),
    h.2.2 [ "r", "bad"] (by decide)⟩

/-- C5: the two hard links share one identity tuple, yet even when the
cache already holds a digest for that very tuple, the scan still submits
both paths to `calculate_md5_optimized` and leaves the cache untouched:
the cache is dead state, contradicting the source comments that document
it as avoiding recomputation. -/
theorem hash_cache_never_consulted :
    get_file_signature exHardA = get_file_signature exHardB ∧
    find_hash_invocations exMd5one [ exHardA, exHardB]
      = [ [ "r", "hl1"], [ "r", "hl2"]] ∧
    scan_hash_cache_after [ (get_file_signature exHardA, "0cc175b9c0f1b6a831c399e269772661")]
      = [ ((4, 7, 99), "0cc175b9c0f1b6a831c399e269772661")] :=
  ⟨rfl, by decide, rfl⟩

/-- Membership in one step of the large-file worker: only an at-threshold
regular file is ever appended; the directory branch (whatever
`_should_skip_directory` says) appends nothing. -/
theorem mem_large_worker_step (cfg : LargeFilesCfg) (acc : List FileInfo)
    (e : Entry) (f : FileInfo) :
    f ∈ large_worker_step cfg acc e ↔
      f ∈ acc ∨
        (e.isFile = true ∧ cfg.min_size_bytes ≤ e.size ∧ f = mkFileInfo e) := by
  unfold large_worker_step
  by_cases hef : e.isFile
  · by_cases hsz : cfg.min_size_bytes ≤ e.size
    · simp [hef, hsz]
    · simp [hef, hsz]
  · simp [hef]

/-- Unfolded characterisation of the worker's fold. -/
theorem mem_foldl_large_worker (cfg : LargeFilesCfg) :
    ∀ (l : List Entry) (acc : List FileInfo) (f : FileInfo),
      f ∈ l.foldl (large_worker_step cfg) acc →
      f ∈ acc ∨
        ∃ e ∈ l, e.isFile = true ∧ cfg.min_size_bytes ≤ e.size ∧ f = mkFileInfo e := by
  intro l
  induction l with
  | nil => intro acc f h; exact Or.inl h
  | cons e es ih =>
    intro acc f h
    simp only [List.foldl_cons] at h
    rcases ih _ f h with h1 | ⟨e2, he2, hprops⟩
    · rcases (mem_large_worker_step cfg acc e f).mp h1 with h2 | h3
      · exact Or.inl h2
      · exact Or.inr ⟨e, List.mem_cons_self _ _, h3⟩
    · exact Or.inr ⟨e2, List.mem_cons_of_mem _ he2, hprops⟩

/-- C7: every record returned by the large-file search meets the byte
threshold, and the returned list is sorted non-increasing by size. -/
theorem find_large_files_sound (cfg : LargeFilesCfg) (rootPath : List String)
    (root : FSNode) :
    (∀ f ∈ find_large_files_optimized cfg rootPath root,
        cfg.min_size_bytes ≤ f.size) ∧
    (find_large_files_optimized cfg rootPath root).Pairwise
      (fun a b => b.size ≤ a.size) := by
  constructor
  · intro f hf
    rw [find_large_files_optimized, List.mem_mergeSort] at hf
    simp only [all_large_files, List.mem_flatMap] at hf
    obtain ⟨u, -, hworker⟩ := hf
    rcases mem_foldl_large_worker cfg _ _ f hworker with h1 | ⟨e, -, -, hsz, heq⟩
    · cases h1
    · rw [heq]
      exact hsz
  · have hs : (List.mergeSort (all_large_files cfg rootPath root)
        (fun a b => decide (b.size ≤ a.size))).Pairwise
          (fun a b : FileInfo => decide (b.size ≤ a.size) = true) := by
      apply List.sorted_mergeSort
      · intro a b c hab hbc
        simp only [decide_eq_true_eq] at hab hbc ⊢
        exact le_trans hbc hab
      · intro a b
        simp only [Bool.or_eq_true, decide_eq_true_eq]
        exact le_total b.size a.size
    exact hs.imp (fun hab => of_decide_eq_true hab)

/-- Witness for C7: the concrete result member meets the threshold. -/
theorem find_large_files_sound_witness :
    exLargeCfg.min_size_bytes ≤ exBigRec.size :=
  (find_large_files_sound exLargeCfg [ "root"] exLargeRoot).1 exBigRec
    (by rw [find_large_files_optimized, List.mem_mergeSort]; decide)

/-- C6: `_should_skip_directory` does flag `root/node_modules`, and the
first-level unit selection does drop it, but the root unit's `rglob`
still walks through it (the `continue` in the worker is a no-op), so the
file below the excluded directory appears in the results. -/
theorem excluded_dir_file_still_returned :
    should_skip_directory exLargeCfg (pathStr [ "root", "node_modules"]) = true ∧
    exBigRec ∈ find_large_files_optimized exLargeCfg [ "root"] exLargeRoot := by
  constructor
  · decide
  · rw [find_large_files_optimized, List.mem_mergeSort]
    decide

/-- The age test of the worker, `age_hours < 24`, holds exactly when the
modification time is less than 24 hours (86400 seconds) before the scan
time — under integer as well as real division. -/
theorem age_test_iff (x : Int) : x / 3600 < 24 ↔ x < 86400 := by
  omega

/-- Membership in one step of the cache worker. -/
theorem mem_cache_worker_step (is_as : Bool) (now : Int) (acc : List FileInfo)
    (e : Entry) (f : FileInfo) :
    f ∈ cache_worker_step is_as now acc e ↔
      f ∈ acc ∨
        (e.isFile = true ∧
          (is_as = true → ¬ ((now - e.mtime) / 3600 < 24)) ∧
          f = mkFileInfo e) := by
  unfold cache_worker_step
  by_cases hef : e.isFile
  · cases is_as with
    | false => simp [hef]
    | true =>
      by_cases hage : (now - (mkFileInfo e).modified_time) / 3600 < 24
      · simp only [hef, if_true, if_pos hage]
        constructor
        · intro h; exact Or.inl h
        · rintro (h | ⟨-, hcond, -⟩)
          · exact h
          · exact absurd hage (hcond trivial)
      · simp only [hef, if_true, if_neg hage]
        simp only [List.mem_append, List.mem_singleton]
        constructor
        · rintro (h | h)
          · exact Or.inl h
          · exact Or.inr ⟨trivial, fun _ => hage, h⟩
        · rintro (h | ⟨-, -, h⟩)
          · exact Or.inl h
          · exact Or.inr h
  · simp [hef]

/-- The cache worker's fold never drops accumulated records. -/
theorem cache_worker_mono (is_as : Bool) (now : Int) :
    ∀ (l : List Entry) (acc : List FileInfo) (f : FileInfo),
      f ∈ acc → f ∈ l.foldl (cache_worker_step is_as now) acc := by
  intro l
  induction l with
  | nil => intro acc f h; exact h
  | cons e es ih =>
    intro acc f h
    simp only [List.foldl_cons]
    exact ih _ f ((mem_cache_worker_step is_as now acc e f).mpr (Or.inl h))

/-- Full characterisation of the cache worker's result. -/
theorem mem_scan_cache_directory_worker (is_as : Bool) (now : Int)
    (selfPath : List String) (cache_dir : FSNode) (f : FileInfo) :
    f ∈ scan_cache_directory_worker is_as now selfPath cache_dir ↔
      ∃ e ∈ entriesUnder selfPath cache_dir,
        e.isFile = true ∧
        (is_as = true → ¬ ((now - e.mtime) / 3600 < 24)) ∧
        f = mkFileInfo e := by
  unfold scan_cache_directory_worker
  suffices h : ∀ (l : List Entry) (acc : List FileInfo),
      f ∈ l.foldl (cache_worker_step is_as now) acc ↔
        f ∈ acc ∨ ∃ e ∈ l, e.isFile = true ∧
          (is_as = true → ¬ ((now - e.mtime) / 3600 < 24)) ∧ f = mkFileInfo e by
    rw [h]
    constructor
    · rintro (hc | hrest)
      · cases hc
      · exact hrest
    · intro hrest
      exact Or.inr hrest
  intro l
  induction l with
  | nil => intro acc; simp
  | cons e es ih =>
    intro acc
    simp only [List.foldl_cons]
    rw [ih]
    rw [mem_cache_worker_step]
    constructor
    · rintro ((h | hnew) | ⟨e2, he2, hp⟩)
      · exact Or.inl h
      · exact Or.inr ⟨e, List.mem_cons_self _ _, hnew⟩
      · exact Or.inr ⟨e2, List.mem_cons_of_mem _ he2, hp⟩
    · rintro (h | ⟨e2, he2, hp⟩)
      · exact Or.inl (Or.inl h)
      · rcases List.mem_cons.mp he2 with he | he
        · subst he
          exact Or.inl (Or.inr hp)
        · exact Or.inr ⟨e2, he, hp⟩

/-- C10: on Apple Silicon the cache worker excludes every regular file
modified less than 24 hours before the scan time; off Apple Silicon no
age filter exists and every regular file of the subtree is returned. -/
theorem cache_scan_age_filter (now : Int) (selfPath : List String) (d : FSNode) :
    (∀ e ∈ entriesUnder selfPath d, e.isFile = true → now - e.mtime < 86400 →
        mkFileInfo e ∉ scan_cache_directory_worker true now selfPath d) ∧
    (∀ e ∈ entriesUnder selfPath d, e.isFile = true →
        mkFileInfo e ∈ scan_cache_directory_worker false now selfPath d) := by
  constructor
  · intro e he hef hrec hmem
    rw [mem_scan_cache_directory_worker] at hmem
    obtain ⟨e2, -, -, hcond, heq⟩ := hmem
    have hmt : e.mtime = e2.mtime := congrArg FileInfo.modified_time heq
    exact hcond rfl ((age_test_iff (now - e2.mtime)).mpr (hmt ▸ hrec))
  · intro e he hef
    rw [mem_scan_cache_directory_worker]
    exact ⟨e, he, hef, fun h => Bool.noConfusion h, rfl⟩

/-- Witness for C10: the 50-second-old cache file is excluded on Apple
Silicon and returned as-is off Apple Silicon. -/
theorem cache_scan_age_filter_witness :
    mkFileInfo exRecentEntry ∉
      scan_cache_directory_worker true exNow
        [ "Users", "me", "Library", "Caches"] exCacheDir ∧
    mkFileInfo exRecentEntry ∈
      scan_cache_directory_worker false exNow
        [ "Users", "me", "Library", "Caches"] exCacheDir := by
  have h := cache_scan_age_filter exNow [ "Users", "me", "Library", "Caches"] exCacheDir
  exact ⟨h.1 exRecentEntry (by decide) rfl (by decide),
    h.2 exRecentEntry (by decide) rfl⟩

end MacClean
